import Mathlib

/-!
Shallow embedding of the csim waveform / spec-table core (`__init__.py`).

Numbers are modelled as rationals (the source works on Python floats /
numpy float arrays; all claims here are about exact structural behaviour,
not rounding).  Waveforms are lists of (x, y) pairs, the row-major view of
the `(n, 2)` numpy arrays the source manipulates.
-/

namespace Csim

/-- One element of a python sequence handed to `np.transpose`: either a
scalar or an embedded 1-D sub-array.  `wave` in the source passes plain
equal-length vectors (scalars only), while `clip` passes
`(x1, kept_sub_array, x2)` tuples mixing scalars with a sub-array. -/
inductive NpElem where
  | scalar (q : ℚ)
  | arr (l : List ℚ)
deriving DecidableEq

/-- Extraction of a flat numeric row from a python sequence, as
`np.asanyarray` needs for a rectangular 2×n numeric array: succeeds only
when every element is a scalar.  A row holding an embedded sub-array is
not rectangular (numpy rejects it rather than concatenating). -/
def toRow : List NpElem → Option (List ℚ)
  | [] => some []
  | NpElem.scalar q :: t => (toRow t).map (fun r => q :: r)
  | NpElem.arr _ :: _ => none

/-- `wave(xs, ys) = np.transpose((xs, ys))` (source line 110): builds the
n×2 sample-pair array.  The transpose succeeds, pairing the rows in
order, exactly when both rows are flat numeric rows of equal length;
otherwise numpy cannot form the rectangular array and the construction
fails (`none`). -/
def wave (xs ys : List NpElem) : Option (List (ℚ × ℚ)) :=
  match toRow xs, toRow ys with
  | some xr, some yr => if xr.length = yr.length then some (xr.zip yr) else none
  | _, _ => none

/-- `np.interp x xp fp` on the paired samples, assuming ascending x:
clamps below the first point and above the last, linear interpolation in
between (exact over ℚ). -/
def interp (x : ℚ) : List (ℚ × ℚ) → ℚ
  | [] => 0
  | [p] => p.2
  | p :: q :: t =>
    if x ≤ p.1 then p.2
    else if x ≤ q.1 then p.2 + (q.2 - p.2) * (x - p.1) / (q.1 - p.1)
    else interp x (q :: t)

/-- `value(w, x)` (source lines 116-124): linear interpolation, deciding
direction from the first two samples' x values and reversing a
descending waveform so `np.interp` sees ascending input.  The source
indexes `w[1, 0]` and `w[0, 0]`, an `IndexError` on waveforms of fewer
than 2 samples; that case (never exercised by the claims) is given the
junk value 0 here. -/
def value (w : List (ℚ × ℚ)) (x : ℚ) : ℚ :=
  match w with
  | p :: q :: _ => if q.1 > p.1 then interp x w else interp x w.reverse
  | _ => 0

/-- `clip(w, x1, x2)` (source lines 126-133): interpolates the two
endpoint values, keeps the samples strictly inside `(x1, x2)`, and hands
`wave` the tuples `(x1, kept_xs, x2)` / `(y1, kept_ys, y2)` — each a
scalar, an embedded sub-array, and a scalar. -/
def clip (w : List (ℚ × ℚ)) (x1 x2 : ℚ) : Option (List (ℚ × ℚ)) :=
  let y1 := value w x1
  let y2 := value w x2
  let keeps := w.filter (fun p => x1 < p.1 && p.1 < x2)
  wave [NpElem.scalar x1, NpElem.arr (keeps.map Prod.fst), NpElem.scalar x2]
       [NpElem.scalar y1, NpElem.arr (keeps.map Prod.snd), NpElem.scalar y2]

/-- `(w[:,1] > y).astype(np.int)` at one sample (source line 141):
1 when the sample's y strictly exceeds the threshold, else 0. -/
def gflag (y : ℚ) (p : ℚ × ℚ) : ℤ :=
  if p.2 > y then 1 else 0

/-- Edge selection on a flag difference `d` (source lines 143-148):
`edge > 0.5` keeps rising edges (`d > 0`), `edge < -0.5` falling
(`d < 0`), otherwise any change (`|d| > 0`). -/
def edgeSel (edge : ℤ) (d : ℤ) : Bool :=
  if edge > 0 then decide (d > 0)
  else if edge < 0 then decide (d < 0)
  else decide (d ≠ 0)

/-- `crosses(w, y, edge)` (source lines 135-154): the nonzero indices of
the difference of consecutive greater-than flags select consecutive
sample pairs, and for each selected pair the crossing x is found by
interpolating the two-sample column-swapped waveform
`twave[index:index+2]` at `y`. -/
def crosses (w : List (ℚ × ℚ)) (y : ℚ) (edge : ℤ) : List ℚ :=
  ((w.zip w.tail).filter
      (fun pq => edgeSel edge (gflag y pq.2 - gflag y pq.1))).map
    (fun pq => value [(pq.1.2, pq.1.1), (pq.2.2, pq.2.1)] y)

/-- `10 ^ n` over ℚ for a natural exponent, by structural recursion. -/
def pow10N : ℕ → ℚ
  | 0 => 1
  | n + 1 => 10 * pow10N n

/-- Python's `10 ** k` for an integer exponent `k`: a power of ten,
the reciprocal power when `k` is negative. -/
def pow10 : ℤ → ℚ
  | Int.ofNat n => pow10N n
  | Int.negSucc n => 1 / pow10N (n + 1)

/-- Python's `'fpnum kMGT'.find(c)`: first index of `c`, or -1. -/
def findIdxZ : List Char → Char → ℤ
  | [], _ => -1
  | a :: t, c =>
    if a = c then 0
    else
      let r := findIdxZ t c
      if r = -1 then -1 else r + 1

/-- `unit_adj(number, units)` (source lines 95-106): the first character
of the units string is looked up in the table `'fpnum kMGT'`; a hit at
index `uindex` multiplies by `10^(-3*(uindex-5))`, otherwise the whole
string `"%"` multiplies by 100, otherwise the multiplier is 1.  Empty
units (an `IndexError` in the source, never exercised by the claims)
returns the number unchanged. -/
def unit_adj (number : ℚ) (units : String) : ℚ :=
  match units.data with
  | [] => number
  | c :: _ =>
    if findIdxZ ("fpnum kMGT".data) c > -1 then
      number * pow10 ((-3) * (findIdxZ ("fpnum kMGT".data) c - 5))
    else if units = "%" then number * 100
    else number * 1

/-- Running state of the per-row corner scan in `specs` (source lines
356-372): the running minimum and maximum (`''` modelled as `none`), the
rendered per-corner cells of the `'all'`-mode line (an empty cell is
`none`; `%.4g` formatting of a present cell is abstracted to the
unit-adjusted number it formats), and the count of corners that
contributed a value. -/
structure ScanState where
  smin : Option ℚ
  smax : Option ℚ
  line : List (Option ℚ)
  num_corners : ℕ
deriving DecidableEq

/-- `if smin == '' or value < smin: smin = value` (source line 365). -/
def updMin (cur : Option ℚ) (v : ℚ) : Option ℚ :=
  match cur with
  | none => some v
  | some m => if v < m then some v else some m

/-- `if smax == '' or value > smax: smax = value` (source line 367). -/
def updMax (cur : Option ℚ) (v : ℚ) : Option ℚ :=
  match cur with
  | none => some v
  | some m => if v > m then some v else some m

/-- One iteration of the corner loop of `specs` (source lines 361-372):
a corner with a recorded value updates min/max, counts, and (in `'all'`
mode) appends its unit-adjusted cell; a corner with no recorded value
(`tables[corner].get(name, '') == ''`) only appends an empty cell in
`'all'` mode. -/
def specStep (isAll : Bool) (units : String) (f : String → Option ℚ)
    (st : ScanState) (corner : String) : ScanState :=
  match f corner with
  | some v =>
    { smin := updMin st.smin v
      smax := updMax st.smax v
      line := if isAll then st.line ++ [some (unit_adj v units)] else st.line
      num_corners := st.num_corners + 1 }
  | none =>
    { st with line := if isAll then st.line ++ [none] else st.line }

/-- The whole corner scan of `specs` for one row (source lines 356-372):
min and max start from the typical corner's value `styp`
(`smin = styp; smax = styp`), the line and the contributing-corner
count start empty. -/
def specScan (isAll : Bool) (units : String) (f : String → Option ℚ)
    (styp : Option ℚ) (corners : List String) : ScanState :=
  corners.foldl (specStep isAll units f)
    { smin := styp, smax := styp, line := [], num_corners := 0 }

/-- The typical-limit field of a well-formed spec limit row: empty, a
plain value, or a value with a `<` or `>` comparator (source lines
382-389 strip the comparator character before comparing). -/
inductive TypLimit where
  | absent
  | plain (v : ℚ)
  | lt (v : ℚ)
  | gt (v : ℚ)
deriving DecidableEq

/-- `ds_min and smin != '' and smin < float(ds_min)` (source line 378). -/
def failMin (dmin smin : Option ℚ) : Bool :=
  match dmin, smin with
  | some a, some b => decide (b < a)
  | _, _ => false

/-- `ds_max and smax != '' and smax > float(ds_max)` (source line 380). -/
def failMax (dmax smax : Option ℚ) : Bool :=
  match dmax, smax with
  | some a, some b => decide (b > a)
  | _, _ => false

/-- `ds_typ[0] == '<'` branch (source lines 382-385): fails when the
scaled maximum exceeds the stripped typical limit. -/
def failTypLt (dtyp : TypLimit) (smax : Option ℚ) : Bool :=
  match dtyp, smax with
  | TypLimit.lt a, some b => decide (b > a)
  | _, _ => false

/-- `ds_typ[0] == '>'` branch (source lines 386-389): fails when the
scaled minimum is below the stripped typical limit. -/
def failTypGt (dtyp : TypLimit) (smin : Option ℚ) : Bool :=
  match dtyp, smin with
  | TypLimit.gt a, some b => decide (b < a)
  | _, _ => false

/-- The result flag of one spec row (source lines 377-389): starts as
`'-'` (unchecked) and is overwritten by `'F'` by each failing check in
turn.  `smin`/`smax` are the already unit-adjusted scan results. -/
def resFlag (dmin : Option ℚ) (dtyp : TypLimit) (dmax : Option ℚ)
    (smin smax : Option ℚ) : String :=
  let r0 := "-"
  let r1 := if failMin dmin smin then "F" else r0
  let r2 := if failMax dmax smax then "F" else r1
  let r3 := if failTypLt dtyp smax then "F" else r2
  if failTypGt dtyp smin then "F" else r3

/-- The scaled minimum fed to the limit checks (source lines 373-374):
the scan minimum, unit-adjusted when present. -/
def scaledMin (units : String) (st : ScanState) : Option ℚ :=
  st.smin.map (fun v => unit_adj v units)

/-- The scaled maximum fed to the limit checks (source lines 375-376). -/
def scaledMax (units : String) (st : ScanState) : Option ℚ :=
  st.smax.map (fun v => unit_adj v units)

/-- The pass/fail flag of one whole well-formed spec row: scan the
corners, unit-adjust min and max, then run the four limit checks
(source lines 356-389). -/
def specRowRes (isAll : Bool) (units : String) (f : String → Option ℚ)
    (styp : Option ℚ) (corners : List String)
    (dmin : Option ℚ) (dtyp : TypLimit) (dmax : Option ℚ) : String :=
  let st := specScan isAll units f styp corners
  resFlag dmin dtyp dmax (scaledMin units st) (scaledMax units st)

/-! Helper lemmas. -/

theorem toRow_map_scalar (xs : List ℚ) : toRow (xs.map NpElem.scalar) = some xs := by
  induction xs with
  | nil => rfl
  | cons a t ih => simp [toRow, ih]

theorem wave_scalars (xs ys : List ℚ) :
    wave (xs.map NpElem.scalar) (ys.map NpElem.scalar) =
      if xs.length = ys.length then some (xs.zip ys) else none := by
  unfold wave
  rw [toRow_map_scalar, toRow_map_scalar]

theorem findIdxZ_not_mem (l : List Char) (c : Char) (h : c ∉ l) : findIdxZ l c = -1 := by
  induction l with
  | nil => rfl
  | cons a t ih =>
    simp only [List.mem_cons, not_or] at h
    have ha : ¬ a = c := fun e => h.1 e.symm
    simp [findIdxZ, ha, ih h.2]

theorem interp_headD (x : ℚ) (w : List (ℚ × ℚ)) (hne : w ≠ [])
    (h : x ≤ (w.headD (0, 0)).1) : interp x w = (w.headD (0, 0)).2 := by
  cases w with
  | nil => exact absurd rfl hne
  | cons p t =>
    cases t with
    | nil => rfl
    | cons q t' =>
      simp only [List.headD] at h ⊢
      simp [interp, h]

theorem interp_all_lt (x : ℚ) (w : List (ℚ × ℚ)) (hne : w ≠ [])
    (hall : ∀ p ∈ w, p.1 < x) : interp x w = (w.getLastD (0, 0)).2 := by
  induction w with
  | nil => exact absurd rfl hne
  | cons p t ih =>
    cases t with
    | nil => rfl
    | cons q t' =>
      have hp : ¬ x ≤ p.1 := not_le.mpr (hall p (by simp))
      have hq : ¬ x ≤ q.1 := not_le.mpr (hall q (by simp))
      have hstep : interp x (p :: q :: t') = interp x (q :: t') := by
        simp [interp, hp, hq]
      rw [hstep, ih (by simp) (fun r hr => hall r (by simp [hr]))]
      simp [List.getLastD_cons]

theorem chain_lt_le_getLastD (w : List (ℚ × ℚ))
    (hch : List.Chain' (fun a b => a.1 < b.1) w) :
    ∀ p ∈ w, p.1 ≤ (w.getLastD (0, 0)).1 := by
  induction w with
  | nil => simp
  | cons a t ih =>
    intro p hp
    cases t with
    | nil =>
      rw [List.mem_singleton] at hp
      subst hp
      rfl
    | cons b t' =>
      rw [List.chain'_cons] at hch
      rw [List.getLastD_cons, List.getLastD_cons]
      rcases List.mem_cons.mp hp with rfl | hp'
      · have hb := ih hch.2 b (by simp)
        rw [List.getLastD_cons] at hb
        exact le_of_lt (lt_of_lt_of_le hch.1 hb)
      · have := ih hch.2 p hp'
        rw [List.getLastD_cons] at this
        exact this

theorem headD_reverse_pair (w : List (ℚ × ℚ)) :
    w.reverse.headD (0, 0) = w.getLastD (0, 0) := by
  rw [List.headD_eq_head?, List.getLastD_eq_getLast?, List.head?_reverse]

theorem getLastD_reverse_pair (w : List (ℚ × ℚ)) :
    w.reverse.getLastD (0, 0) = w.headD (0, 0) := by
  rw [List.headD_eq_head?, List.getLastD_eq_getLast?, List.getLast?_reverse]

theorem exists_two (w : List (ℚ × ℚ)) (h2 : 2 ≤ w.length) :
    ∃ p q t, w = p :: q :: t := by
  cases w with
  | nil => simp at h2
  | cons p t =>
    cases t with
    | nil => simp at h2
    | cons q t' => exact ⟨p, q, t', rfl⟩

theorem value_of_asc (w : List (ℚ × ℚ)) (x : ℚ)
    (hch : List.Chain' (fun a b => a.1 < b.1) w) (h2 : 2 ≤ w.length) :
    value w x = interp x w := by
  obtain ⟨p, q, t, rfl⟩ := exists_two w h2
  have hpq : p.1 < q.1 := (List.chain'_cons.mp hch).1
  simp [value, hpq]

theorem value_of_desc (w : List (ℚ × ℚ)) (x : ℚ)
    (hch : List.Chain' (fun a b => b.1 < a.1) w) (h2 : 2 ≤ w.length) :
    value w x = interp x w.reverse := by
  obtain ⟨p, q, t, rfl⟩ := exists_two w h2
  have hqp : q.1 < p.1 := (List.chain'_cons.mp hch).1
  have hn : ¬ q.1 > p.1 := not_lt.mpr (le_of_lt hqp)
  simp [value, hn]

/-! Claim theorems. -/

/-- C1 (counterexample): a single-point construction does not fail —
`wave([0], [1])` succeeds and returns the one-sample waveform, so the
claim's "fails when fewer than 2 points are given" is false on the
code. -/
theorem wave_single_point_succeeds :
    wave [NpElem.scalar 0] [NpElem.scalar 1] = some [(0, 1)] ∧
    wave [NpElem.scalar 0] [NpElem.scalar 1] ≠ none :=
  ⟨rfl, by decide⟩

/-- C1 (amended): `wave(xs, ys)` fails exactly when the two sequences
have different lengths; for equal-length sequences of any size —
including fewer than 2 points — it returns the waveform pairing them in
order.  No minimum point count is checked. -/
theorem wave_length_check (xs ys : List ℚ) :
    (wave (xs.map NpElem.scalar) (ys.map NpElem.scalar) = none ↔ xs.length ≠ ys.length) ∧
    (xs.length = ys.length →
      wave (xs.map NpElem.scalar) (ys.map NpElem.scalar) = some (xs.zip ys)) := by
  rw [wave_scalars]
  by_cases h : xs.length = ys.length
  · constructor
    · simp [h]
    · intro _
      simp [h]
  · constructor
    · simp [h]
    · intro hh
      exact absurd hh h

/-- C1 (witness): equal-length two-point inputs succeed, pairing in
order. -/
theorem wave_length_check_witness :
    ([(0 : ℚ), 1].length = [(5 : ℚ), 7].length) ∧
    wave ([(0 : ℚ), 1].map NpElem.scalar) ([(5 : ℚ), 7].map NpElem.scalar) =
      some [(0, 5), (1, 7)] :=
  ⟨rfl, (wave_length_check [0, 1] [5, 7]).2 rfl⟩

/-- C2 (counterexample): on `[(0,0),(1,10),(2,-10)]` with threshold 0,
the first crossing returned by the code is exactly `x = 0` (the first
sample sits exactly on the threshold and the inverse interpolation
returns its x), not `x ≈ 0.5` as claimed. -/
theorem crosses_example_first_not_half :
    (crosses [(0, 0), (1, 10), (2, -10)] 0 0).getD 0 99 = 0 ∧ (0 : ℚ) ≠ 1 / 2 :=
  ⟨by decide, by norm_num⟩

/-- C2 (amended): `crosses([(0,0),(1,10),(2,-10)], 0, 0)` returns
exactly two crossings in sample order, the first at `x = 0` and the
second at `x = 1.5`. -/
theorem crosses_example_exact :
    (crosses [(0, 0), (1, 10), (2, -10)] 0 0).length = 2 ∧
    (crosses [(0, 0), (1, 10), (2, -10)] 0 0).getD 0 99 = 0 ∧
    (crosses [(0, 0), (1, 10), (2, -10)] 0 0).getD 1 99 = 3 / 2 := by
  refine ⟨by decide, by decide, ?_⟩
  have h : (crosses [(0, 0), (1, 10), (2, -10)] 0 0).getD 1 99
      = 2 + (1 - 2) * (0 - (-10)) / (10 - (-10)) := rfl
  rw [h]
  norm_num

/-- C6 (code evaluation): `clip` can never return a waveform.  It hands
`wave` the tuples `(x1, kept_sub_array, x2)` mixing scalars with an
embedded sub-array, which numpy cannot assemble into the rectangular
2×n array `np.transpose` needs — the construction always fails instead
of producing the concatenated sample list the docstring and spec
describe. -/
theorem clip_never_returns (w : List (ℚ × ℚ)) (x1 x2 : ℚ) : clip w x1 x2 = none := rfl

/-- C9: `unit_adj(5, "mV") = 5000` (milli, index 4 in `'fpnum kMGT'`,
scales by `10^3`) and `unit_adj(5, "%") = 500` (the whole-string `"%"`
case scales by 100). -/
theorem unit_adj_examples : unit_adj 5 "mV" = 5000 ∧ unit_adj 5 "%" = 500 := by
  constructor
  · have h : unit_adj 5 "mV" = 5 * (10 * (10 * (10 * 1))) := rfl
    rw [h]
    norm_num
  · have h : unit_adj 5 "%" = 5 * 100 := rfl
    rw [h]
    norm_num

/-- C10: when the first character of a non-empty units string is none of
the ten table characters and the string is not exactly `"%"`, the
multiplier is 1 and the number is returned unchanged; in particular a
longer string beginning with `'%'` is not scaled. -/
theorem unit_adj_no_scale (n : ℚ) (c : Char) (rest : List Char)
    (hc : c ∉ ['f', 'p', 'n', 'u', 'm', ' ', 'k', 'M', 'G', 'T'])
    (hp : String.mk (c :: rest) ≠ "%") :
    unit_adj n (String.mk (c :: rest)) = n := by
  have hl : c ∉ ("fpnum kMGT".data) := by
    have e : ("fpnum kMGT".data) = ['f', 'p', 'n', 'u', 'm', ' ', 'k', 'M', 'G', 'T'] := rfl
    rw [e]
    exact hc
  have hf := findIdxZ_not_mem _ _ hl
  have hbody : unit_adj n (String.mk (c :: rest)) =
      (if findIdxZ ("fpnum kMGT".data) c > -1 then
        n * pow10 ((-3) * (findIdxZ ("fpnum kMGT".data) c - 5))
      else if String.mk (c :: rest) = "%" then n * 100
      else n * 1) := rfl
  rw [hbody, hf, if_neg (by norm_num), if_neg hp, mul_one]

/-- C10 (witness): `unit_adj(5, "%V")` is unscaled — the `"%"` case
needs the whole string to be `"%"`. -/
theorem unit_adj_no_scale_witness :
    ('%' ∉ ['f', 'p', 'n', 'u', 'm', ' ', 'k', 'M', 'G', 'T']) ∧
    (String.mk ('%' :: ['V']) ≠ "%") ∧
    unit_adj 5 (String.mk ('%' :: ['V'])) = 5 :=
  ⟨by decide, by decide, unit_adj_no_scale 5 '%' ['V'] (by decide) (by decide)⟩

theorem edgeSel_zero_flags (y : ℚ) (p q : ℚ × ℚ) :
    edgeSel 0 (gflag y q - gflag y p) = (decide (p.2 > y) != decide (q.2 > y)) := by
  by_cases hp : p.2 > y <;> by_cases hq : q.2 > y <;>
    simp [edgeSel, gflag, hp, hq]

/-- C3: with `edge = 0`, the number of crossings equals the number of
consecutive sample pairs whose strict greater-than flags against the
threshold differ — the sign change of `(y_i - y)` under the code's
strict-greater tie rule (a sample exactly on the threshold counts as
"not greater"). -/
theorem crosses_zero_counts (w : List (ℚ × ℚ)) (h2 : 2 ≤ w.length) (y : ℚ) :
    (crosses w y 0).length =
      (w.zip w.tail).countP
        (fun pq => decide (pq.1.2 > y) != decide (pq.2.2 > y)) := by
  unfold crosses
  rw [List.length_map, ← List.countP_eq_length_filter]
  simp only [edgeSel_zero_flags]

/-- C3 (witness): `[(0,0),(1,4)]` against threshold 2 has one flag
change and one crossing. -/
theorem crosses_zero_counts_witness :
    2 ≤ ([((0 : ℚ), (0 : ℚ)), (1, 4)] : List (ℚ × ℚ)).length ∧
    (crosses [((0 : ℚ), (0 : ℚ)), (1, 4)] 2 0).length = 1 := by
  refine ⟨by decide, ?_⟩
  rw [crosses_zero_counts [((0 : ℚ), (0 : ℚ)), (1, 4)] (by decide) 2]
  decide

/-- C5: for a monotone waveform of at least 2 samples, `value` clamps
any `x` outside the x-domain to the y-value of the nearest endpoint
sample: below the smallest x it returns that endpoint's y, above the
largest x the other endpoint's y, in both the ascending and descending
orientations. -/
theorem value_clamps_outside_domain (w : List (ℚ × ℚ)) (h2 : 2 ≤ w.length) (x : ℚ) :
    (List.Chain' (fun a b => a.1 < b.1) w →
      (x < (w.headD (0, 0)).1 → value w x = (w.headD (0, 0)).2) ∧
      ((w.getLastD (0, 0)).1 < x → value w x = (w.getLastD (0, 0)).2)) ∧
    (List.Chain' (fun a b => b.1 < a.1) w →
      (x < (w.getLastD (0, 0)).1 → value w x = (w.getLastD (0, 0)).2) ∧
      ((w.headD (0, 0)).1 < x → value w x = (w.headD (0, 0)).2)) := by
  have hne : w ≠ [] := by
    obtain ⟨p, q, t, rfl⟩ := exists_two w h2
    simp
  have hner : w.reverse ≠ [] := by
    simpa [List.reverse_eq_nil_iff] using hne
  constructor
  · intro hch
    constructor
    · intro hx
      rw [value_of_asc w x hch h2]
      exact interp_headD x w hne (le_of_lt hx)
    · intro hx
      rw [value_of_asc w x hch h2]
      exact interp_all_lt x w hne
        (fun p hp => lt_of_le_of_lt (chain_lt_le_getLastD w hch p hp) hx)
  · intro hch
    have hchr : List.Chain' (fun a b : ℚ × ℚ => a.1 < b.1) w.reverse := by
      rw [List.chain'_reverse]
      exact hch
    constructor
    · intro hx
      rw [value_of_desc w x hch h2]
      rw [← headD_reverse_pair] at hx ⊢
      exact interp_headD x w.reverse hner (le_of_lt hx)
    · intro hx
      rw [value_of_desc w x hch h2]
      rw [← getLastD_reverse_pair] at hx ⊢
      exact interp_all_lt x w.reverse hner
        (fun p hp => lt_of_le_of_lt (chain_lt_le_getLastD w.reverse hchr p hp) hx)

/-- C5 (witness): on the ascending waveform `[(0,0),(1,10)]`, the point
`x = -1` below the domain clamps to the left endpoint's value 0. -/
theorem value_clamps_outside_domain_witness :
    2 ≤ ([((0 : ℚ), (0 : ℚ)), (1, 10)] : List (ℚ × ℚ)).length ∧
    List.Chain' (fun a b : ℚ × ℚ => a.1 < b.1) [((0 : ℚ), (0 : ℚ)), (1, 10)] ∧
    (-1 : ℚ) < (([((0 : ℚ), (0 : ℚ)), (1, 10)] : List (ℚ × ℚ)).headD (0, 0)).1 ∧
    value [((0 : ℚ), (0 : ℚ)), (1, 10)] (-1) = 0 := by
  have hch : List.Chain' (fun a b : ℚ × ℚ => a.1 < b.1) [((0 : ℚ), (0 : ℚ)), (1, 10)] := by
    rw [List.chain'_cons]
    exact ⟨by decide, List.chain'_singleton _⟩
  refine ⟨by decide, hch, by decide, ?_⟩
  exact ((value_clamps_outside_domain [((0 : ℚ), (0 : ℚ)), (1, 10)] (by decide) (-1)).1 hch).1
    (by decide)

/-- C8: for a monotone waveform of at least 2 samples, reversing the
sample order (which flips the domain direction) leaves `value`
unchanged at every `x`. -/
theorem value_reverse_invariant (w : List (ℚ × ℚ)) (h2 : 2 ≤ w.length)
    (hm : List.Chain' (fun a b => a.1 < b.1) w ∨ List.Chain' (fun a b => b.1 < a.1) w)
    (x : ℚ) :
    value w.reverse x = value w x := by
  have h2r : 2 ≤ w.reverse.length := by
    rw [List.length_reverse]
    exact h2
  rcases hm with hasc | hdesc
  · have hdr : List.Chain' (fun a b : ℚ × ℚ => b.1 < a.1) w.reverse := by
      rw [List.chain'_reverse]
      exact hasc
    rw [value_of_desc w.reverse x hdr h2r, List.reverse_reverse, value_of_asc w x hasc h2]
  · have har : List.Chain' (fun a b : ℚ × ℚ => a.1 < b.1) w.reverse := by
      rw [List.chain'_reverse]
      exact hdesc
    rw [value_of_asc w.reverse x har h2r, value_of_desc w x hdesc h2]

/-- C8 (witness): reversing `[(0,0),(1,10)]` leaves the interpolated
value at `x = 1/2` unchanged. -/
theorem value_reverse_invariant_witness :
    2 ≤ ([((0 : ℚ), (0 : ℚ)), (1, 10)] : List (ℚ × ℚ)).length ∧
    value ([((0 : ℚ), (0 : ℚ)), (1, 10)] : List (ℚ × ℚ)).reverse (1 / 2) =
      value [((0 : ℚ), (0 : ℚ)), (1, 10)] (1 / 2) := by
  have hch : List.Chain' (fun a b : ℚ × ℚ => a.1 < b.1) [((0 : ℚ), (0 : ℚ)), (1, 10)] := by
    rw [List.chain'_cons]
    exact ⟨by decide, List.chain'_singleton _⟩
  exact ⟨by decide, value_reverse_invariant _ (by decide) (Or.inl hch) (1 / 2)⟩

theorem resFlag_cases (dmin dmax smin smax : Option ℚ) (dtyp : TypLimit) :
    resFlag dmin dtyp dmax smin smax = "-" ∨ resFlag dmin dtyp dmax smin smax = "P" ∨
      resFlag dmin dtyp dmax smin smax = "F" := by
  unfold resFlag
  cases h1 : failMin dmin smin <;> cases h2 : failMax dmax smax <;>
    cases h3 : failTypLt dtyp smax <;> cases h4 : failTypGt dtyp smin <;> decide

theorem resFlag_F_iff (dmin dmax smin smax : Option ℚ) (dtyp : TypLimit) :
    resFlag dmin dtyp dmax smin smax = "F" ↔
      (failMin dmin smin = true ∨ failMax dmax smax = true ∨
       failTypLt dtyp smax = true ∨ failTypGt dtyp smin = true) := by
  unfold resFlag
  cases h1 : failMin dmin smin <;> cases h2 : failMax dmax smax <;>
    cases h3 : failTypLt dtyp smax <;> cases h4 : failTypGt dtyp smin <;> decide

theorem failMin_iff (dmin smin : Option ℚ) :
    failMin dmin smin = true ↔ ∃ a b, dmin = some a ∧ smin = some b ∧ b < a := by
  cases dmin <;> cases smin <;> simp [failMin]

theorem failMax_iff (dmax smax : Option ℚ) :
    failMax dmax smax = true ↔ ∃ a b, dmax = some a ∧ smax = some b ∧ b > a := by
  cases dmax <;> cases smax <;> simp [failMax]

theorem failTypLt_iff (dtyp : TypLimit) (smax : Option ℚ) :
    failTypLt dtyp smax = true ↔ ∃ a b, dtyp = TypLimit.lt a ∧ smax = some b ∧ b > a := by
  cases dtyp <;> cases smax <;> simp [failTypLt]

theorem failTypGt_iff (dtyp : TypLimit) (smin : Option ℚ) :
    failTypGt dtyp smin = true ↔ ∃ a b, dtyp = TypLimit.gt a ∧ smin = some b ∧ b < a := by
  cases dtyp <;> cases smin <;> simp [failTypGt]

/-- C4: for a well-formed limit row (typed bounds, the typical limit
plain or carrying a `<`/`>` comparator), the row's result flag is one of
unchecked (`'-'`), pass (`'P'`), fail (`'F'`), and it is `'F'` exactly
when a present lower limit exceeds the scaled minimum, a present upper
limit is exceeded by the scaled maximum, a `<`-typical limit is
exceeded by the scaled maximum, or a `>`-typical limit exceeds the
scaled minimum; an absent bound is never checked. -/
theorem specs_result_flag (isAll : Bool) (units : String) (f : String → Option ℚ)
    (styp : Option ℚ) (corners : List String)
    (dmin : Option ℚ) (dtyp : TypLimit) (dmax : Option ℚ) :
    (specRowRes isAll units f styp corners dmin dtyp dmax = "-" ∨
     specRowRes isAll units f styp corners dmin dtyp dmax = "P" ∨
     specRowRes isAll units f styp corners dmin dtyp dmax = "F") ∧
    (specRowRes isAll units f styp corners dmin dtyp dmax = "F" ↔
      ((∃ a b, dmin = some a ∧
          scaledMin units (specScan isAll units f styp corners) = some b ∧ b < a) ∨
       (∃ a b, dmax = some a ∧
          scaledMax units (specScan isAll units f styp corners) = some b ∧ b > a) ∨
       (∃ a b, dtyp = TypLimit.lt a ∧
          scaledMax units (specScan isAll units f styp corners) = some b ∧ b > a) ∨
       (∃ a b, dtyp = TypLimit.gt a ∧
          scaledMin units (specScan isAll units f styp corners) = some b ∧ b < a))) := by
  constructor
  · exact resFlag_cases dmin dmax (scaledMin units (specScan isAll units f styp corners))
      (scaledMax units (specScan isAll units f styp corners)) dtyp
  · have hdef : specRowRes isAll units f styp corners dmin dtyp dmax =
        resFlag dmin dtyp dmax (scaledMin units (specScan isAll units f styp corners))
          (scaledMax units (specScan isAll units f styp corners)) := rfl
    rw [hdef, resFlag_F_iff, failMin_iff, failMax_iff, failTypLt_iff, failTypGt_iff]

theorem specScan_line_aux (u : String) (f : String → Option ℚ) :
    ∀ (cs : List String) (st : ScanState),
      (cs.foldl (specStep true u f) st).line =
        st.line ++ cs.map (fun k => (f k).map (fun v => unit_adj v u)) := by
  intro cs
  induction cs with
  | nil =>
    intro st
    simp
  | cons c cs ih =>
    intro st
    rw [List.foldl_cons, ih]
    cases hfc : f c <;> simp [specStep, hfc]

theorem specScan_proj_aux (u : String) (f : String → Option ℚ) :
    ∀ (cs : List String) (st₁ st₂ : ScanState),
      st₁.smin = st₂.smin → st₁.smax = st₂.smax → st₁.num_corners = st₂.num_corners →
      ((cs.foldl (specStep true u f) st₁).smin = (cs.foldl (specStep true u f) st₂).smin ∧
       (cs.foldl (specStep true u f) st₁).smax = (cs.foldl (specStep true u f) st₂).smax ∧
       (cs.foldl (specStep true u f) st₁).num_corners =
         (cs.foldl (specStep true u f) st₂).num_corners) := by
  intro cs
  induction cs with
  | nil =>
    intro st₁ st₂ h1 h2 h3
    exact ⟨h1, h2, h3⟩
  | cons c cs ih =>
    intro st₁ st₂ h1 h2 h3
    rw [List.foldl_cons, List.foldl_cons]
    apply ih
    · cases hfc : f c <;> simp [specStep, hfc, h1]
    · cases hfc : f c <;> simp [specStep, hfc, h2]
    · cases hfc : f c <;> simp [specStep, hfc, h3]

/-- C7: a requested condition with no recorded value contributes nothing
to the running minimum, maximum, or contributing-corner count — the
scan over the corner list with it removed gives the same results — and
in `'all'` mode its column is the empty cell (`none`), never zero. -/
theorem specs_skip_missing (u : String) (f : String → Option ℚ) (styp : Option ℚ)
    (cs₁ cs₂ : List String) (c : String) (h : f c = none) :
    (specScan true u f styp (cs₁ ++ c :: cs₂)).smin =
      (specScan true u f styp (cs₁ ++ cs₂)).smin ∧
    (specScan true u f styp (cs₁ ++ c :: cs₂)).smax =
      (specScan true u f styp (cs₁ ++ cs₂)).smax ∧
    (specScan true u f styp (cs₁ ++ c :: cs₂)).num_corners =
      (specScan true u f styp (cs₁ ++ cs₂)).num_corners ∧
    (specScan true u f styp (cs₁ ++ c :: cs₂)).line =
      cs₁.map (fun k => (f k).map (fun v => unit_adj v u)) ++
        none :: cs₂.map (fun k => (f k).map (fun v => unit_adj v u)) := by
  unfold specScan
  rw [List.foldl_append, List.foldl_append, List.foldl_cons]
  have hsmin : (specStep true u f
      (List.foldl (specStep true u f) ⟨styp, styp, [], 0⟩ cs₁) c).smin =
      (List.foldl (specStep true u f) (⟨styp, styp, [], 0⟩ : ScanState) cs₁).smin := by
    simp [specStep, h]
  have hsmax : (specStep true u f
      (List.foldl (specStep true u f) ⟨styp, styp, [], 0⟩ cs₁) c).smax =
      (List.foldl (specStep true u f) (⟨styp, styp, [], 0⟩ : ScanState) cs₁).smax := by
    simp [specStep, h]
  have hnum : (specStep true u f
      (List.foldl (specStep true u f) ⟨styp, styp, [], 0⟩ cs₁) c).num_corners =
      (List.foldl (specStep true u f) (⟨styp, styp, [], 0⟩ : ScanState) cs₁).num_corners := by
    simp [specStep, h]
  obtain ⟨e1, e2, e3⟩ := specScan_proj_aux u f cs₂ _ _ hsmin hsmax hnum
  refine ⟨e1, e2, e3, ?_⟩
  rw [specScan_line_aux u f cs₂]
  have hstep_line : (specStep true u f
      (List.foldl (specStep true u f) ⟨styp, styp, [], 0⟩ cs₁) c).line =
      (List.foldl (specStep true u f) (⟨styp, styp, [], 0⟩ : ScanState) cs₁).line ++
        [none] := by
    simp [specStep, h]
  rw [hstep_line, specScan_line_aux u f cs₁]
  simp

/-- C7 (witness): corner `"miss"` has no recorded value; it leaves the
scan minimum untouched. -/
theorem specs_skip_missing_witness :
    ((fun k => if k = "c1" then some (2 : ℚ) else none) "miss" = none) ∧
    (specScan true "V" (fun k => if k = "c1" then some (2 : ℚ) else none) (some 2)
        (["c1"] ++ "miss" :: [])).smin = some 2 := by
  refine ⟨by decide, ?_⟩
  rw [(specs_skip_missing "V" (fun k => if k = "c1" then some (2 : ℚ) else none)
    (some 2) ["c1"] [] "miss" (by decide)).1]
  decide

end Csim
